import Mathlib

/-!
Verification of the region navigator and report generator of
SublimeLinter3 (`commands.py`), shallowly embedded in Lean 4.

A `Region` mirrors `sublime.Region`: two endpoints `a` and `b`, with
`begin() = min a b` and `end() = max a b`, and inclusive containment.
`sublime.Selection` keeps its regions sorted by position and merges
intersecting (including touching) regions on `add`; `selAdd` /
`selAddAll` model that container, which `find_error` uses to merge the
warning and error region lists before scanning.
-/

structure Region where
  a : Nat
  b : Nat
deriving DecidableEq, Repr

instance : Inhabited Region := ⟨⟨0, 0⟩⟩

/-- `sublime.Region.begin()`: the smaller endpoint. -/
def Region.rbegin (r : Region) : Nat := min r.a r.b

/-- `sublime.Region.end()`: the larger endpoint. -/
def Region.rend (r : Region) : Nat := max r.a r.b

/-- `sublime.Region.contains(point)`: `begin() <= point <= end()`. -/
def Region.containsPt (r : Region) (x : Nat) : Bool :=
  r.rbegin ≤ x && x ≤ r.rend

/-- `sublime.Region.contains(region)`: both endpoints of the argument lie
inside the receiver. -/
def Region.containsReg (r m : Region) : Bool :=
  r.containsPt m.a && r.containsPt m.b

/-- `sublime.Selection.add`: insert a region into the sorted sequence,
merging it with every region it intersects (touching counts). -/
def selAdd : List Region → Region → List Region
  | [], r => [r]
  | s :: rest, r =>
    if s.rend < r.rbegin then s :: selAdd rest r
    else if r.rend < s.rbegin then r :: s :: rest
    else selAdd rest (Region.mk (min s.rbegin r.rbegin) (max s.rend r.rend))

/-- `sublime.Selection.add_all`: add each region in turn. -/
def selAddAll (l : List Region) (rs : List Region) : List Region :=
  rs.foldl selAdd l

/-- The merged sequence `find_error` scans: a fresh selection into which
the warning regions and then the error regions are added
(`regions.add_all(warnings); regions.add_all(errors)`). -/
def selMerged (warnings errors : List Region) : List Region :=
  selAddAll (selAddAll [] warnings) errors

/-- The forward loop of `find_error`: first region with
`point < region.begin()`, scanning in index order. -/
def scanForward : List Region → Nat → Option Region
  | [], _ => none
  | r :: rs, point =>
    if point < r.rbegin then some r else scanForward rs point

/-- The body of the backward loop: first region with
`point > region.end()` in the order given. -/
def scanBack : List Region → Nat → Option Region
  | [], _ => none
  | r :: rs, point =>
    if r.rend < point then some r else scanBack rs point

/-- The backward loop of `find_error`: scan `reversed(regions)`. -/
def scanBackward (regions : List Region) (point : Nat) : Option Region :=
  scanBack regions.reverse point

/-- The anchor of `find_error`: if the selection is empty a `(0, 0)`
caret is added first, then `sel[0].begin()` going forward and
`sel[-1].end()` going backward. -/
def anchorPoint (sel : List Region) (forward : Bool) : Nat :=
  let sel1 := if sel.isEmpty then [Region.mk 0 0] else sel
  if forward then sel1.headI.rbegin else sel1.getLastI.rend

/-- `'No {0} lint errors.'.format('next' if forward else 'previous')`. -/
def noDirMsg (forward : Bool) : String :=
  "No " ++ (if forward then "next" else "previous") ++ " lint errors."

/-- Comparison used to sort marks by `begin()` (`marks.sort(key=...)`,
a stable sort). -/
def markLE (x y : Region) : Prop := x.rbegin ≤ y.rbegin

instance : DecidableRel markLE := fun x y => Nat.decLe x.rbegin y.rbegin

instance : IsTotal Region markLE := ⟨fun x y => Nat.le_total x.rbegin y.rbegin⟩

instance : IsTrans Region markLE := ⟨fun _ _ _ => Nat.le_trans⟩

/-- `find_mark_within`: collect the warning and error marks, sort them by
`begin()`, and return the first mark fully contained in `region`. -/
def find_mark_within (warningMarks errorMarks : List Region) (region : Region) :
    Option Region :=
  let marks := List.insertionSort markLE (warningMarks ++ errorMarks)
  marks.find? (fun m => region.containsReg m)

/-- `select_lint_region`: the selection is cleared and set to the first
contained mark, or to the empty region at the region's `begin()` when no
mark is contained. Returns the resulting selection. -/
def select_lint_region (warningMarks errorMarks : List Region) (region : Region) :
    List Region :=
  match find_mark_within warningMarks errorMarks region with
  | some m => selAdd [] m
  | none => selAdd [] (Region.mk region.rbegin region.rbegin)

/-- Outcome of one `find_error` call: `ok result selAfter message`
(normal return of `region_to_select`, the view's selection afterwards,
and the error message surfaced on failure), or `indexError selAfter`
(the uncaught `IndexError` raised by `regions[0]` on an empty
selection object, with the selection as it stands at the raise). -/
inductive FindOutcome where
  | ok : Option Region → List Region → Option String → FindOutcome
  | indexError : List Region → FindOutcome
deriving DecidableEq, Repr

/-- `sublimelinter_find_error.find_error`.  The selection is snapshotted
(`saved_sel`), the anchor computed, the warning and error regions merged
into a selection object (which sorts and merges them), and the
directional scan run.  On a miss, the wrap logic of lines 76-80 runs:
with zero regions, `regions[0]` raises `IndexError` (at that moment the
selection — which the merged container aliases — is empty); with one
region containing the anchor, wrapping is suppressed; otherwise the
first/last region is taken when `wrap_find` is set.  Success delegates
to `select_lint_region`; failure restores `saved_sel` and surfaces the
directional message. -/
def find_error (wrapFind : Bool) (sel warnings errors : List Region)
    (forward : Bool) : FindOutcome :=
  match (if forward then
           scanForward (selMerged warnings errors) (anchorPoint sel forward)
         else
           scanBackward (selMerged warnings errors) (anchorPoint sel forward)) with
  | some r => .ok (some r) (select_lint_region warnings errors r) none
  | none =>
    match selMerged warnings errors with
    | [] => .indexError []
    | r0 :: rest =>
      if (decide (1 < (r0 :: rest).length)
          || !(r0.containsPt (anchorPoint sel forward))) && wrapFind then
        .ok (some (if forward then (r0 :: rest).headI else (r0 :: rest).getLastI))
          (select_lint_region warnings errors
            (if forward then (r0 :: rest).headI else (r0 :: rest).getLastI))
          none
      else
        .ok none (selAddAll [] sel) (some (noDirMsg forward))

/-- The `next_error` / `previous_error` command as invoked through the
`error_command` decorator: with an empty error map the decorator shows
`'No lint errors.'` and never calls `find_error`; otherwise `find_error`
runs. -/
def run_find_error (errs : List (Nat × List (Nat × String))) (wrapFind : Bool)
    (sel warnings errors : List Region) (forward : Bool) : FindOutcome :=
  if errs.isEmpty then .ok none sel (some "No lint errors.")
  else find_error wrapFind sel warnings errors forward

/-- Well-formed selection: what `view.sel()` can hold — regions sorted
and pairwise separated (the container merges touching regions). -/
def SelWF (l : List Region) : Prop :=
  l.Pairwise (fun x y => x.rend < y.rbegin)

/-- One linter's state after a lint run: its (optional) filename and its
error map, a line-keyed association list of `(col, message)` pairs
(`linter.errors`). -/
structure Linter where
  filename : Option String
  errors : List (Nat × List (Nat × String))
deriving DecidableEq, Repr

instance : Inhabited Linter := ⟨⟨none, []⟩⟩

/-- `os.path.basename`: the component after the last path separator. -/
def basename (p : String) : String :=
  String.mk ((p.data.reverse.takeWhile (fun c => c ≠ '/')).reverse)

/-- Comparison used by `sorted(linter.errors.items())`: Python compares
the key first, and error-map keys are unique. -/
def lineLE (x y : Nat × List (Nat × String)) : Prop := x.1 ≤ y.1

instance : DecidableRel lineLE := fun x y => Nat.decLe x.1 y.1

instance : IsTotal (Nat × List (Nat × String)) lineLE :=
  ⟨fun x y => Nat.le_total x.1 y.1⟩

instance : IsTrans (Nat × List (Nat × String)) lineLE :=
  ⟨fun _ _ _ => Nat.le_trans⟩

/-- The diagnostic lines one linter contributes to a report fragment:
for each `(line, errors)` in key order, one `'  {line}: {error}'` line
per `(col, error)` pair, the column being dropped by the format. -/
def linter_lines (l : Linter) : List String :=
  if l.errors.isEmpty then []
  else
    (List.insertionSort lineLE l.errors).flatMap
      (fun le => le.2.map (fun ce => "  " ++ toString le.1 ++ ": " ++ ce.2))

/-- `linters[0].filename or 'untitled'` then `os.path.basename`:
a missing or empty filename becomes the placeholder. -/
def reportFilename (linters : List Linter) : String :=
  basename (match linters.headI.filename with
    | none => "untitled"
    | some s => if s = "" then "untitled" else s)

/-- The fragment `sublimelinter_report.report`'s `insert` closure
appends for one document: nothing when there are no linters or no linter
produced errors; otherwise a blank line, a header naming the file, and
the diagnostic lines of every linter. -/
def report_fragment (linters : List Linter) : Option String :=
  if linters.isEmpty then none
  else if linters.all (fun l => l.errors.isEmpty) then none
  else
    some ("\n" ++ reportFilename linters ++ ":\n" ++
      String.join ((linters.flatMap linter_lines).map (fun s => s ++ "\n")))

/-- The size test of `sublimelinter_report.folder`:
`os.stat(path).st_size < 256 * 1024`. -/
def folderSizeOk (size : Nat) : Bool := size < 256 * 1024

/-- The folder walk restricted to what is implemented: the files (paths
with sizes) that pass the size filter. -/
def folder (files : List (String × Nat)) : List (String × Nat) :=
  files.filter (fun f => folderSizeOk f.2)

theorem Region.rbegin_le_rend (r : Region) : r.rbegin ≤ r.rend := by
  simp only [Region.rbegin, Region.rend]
  omega

theorem Region.rbegin_mk (x y : Nat) : (Region.mk x y).rbegin = min x y := rfl

theorem Region.rend_mk (x y : Nat) : (Region.mk x y).rend = max x y := rfl

theorem scanForward_eq_find? (l : List Region) (p : Nat) :
    scanForward l p = l.find? (fun r => decide (p < r.rbegin)) := by
  induction l with
  | nil => rfl
  | cons a as ih =>
    by_cases h : p < a.rbegin
    · rw [scanForward, if_pos h, List.find?_cons_of_pos _ (by simpa using h)]
    · rw [scanForward, if_neg h, List.find?_cons_of_neg _ (by simpa using h), ih]

theorem scanBack_eq_find? (l : List Region) (p : Nat) :
    scanBack l p = l.find? (fun r => decide (r.rend < p)) := by
  induction l with
  | nil => rfl
  | cons a as ih =>
    by_cases h : a.rend < p
    · rw [scanBack, if_pos h, List.find?_cons_of_pos _ (by simpa using h)]
    · rw [scanBack, if_neg h, List.find?_cons_of_neg _ (by simpa using h), ih]

theorem selAdd_lb {c : Nat} {l : List Region} {r : Region}
    (hl : ∀ x ∈ l, c < x.rbegin) (hr : c < r.rbegin) :
    ∀ t ∈ selAdd l r, c < t.rbegin := by
  induction l generalizing r with
  | nil =>
    intro t ht
    simp only [selAdd, List.mem_singleton] at ht
    exact ht ▸ hr
  | cons s rest ih =>
    intro t ht
    simp only [selAdd] at ht
    split at ht
    · rcases List.mem_cons.mp ht with h | h
      · exact h ▸ hl s (List.mem_cons_self _ _)
      · exact ih (fun x hx => hl x (List.mem_cons_of_mem _ hx)) hr t h
    · split at ht
      · rcases List.mem_cons.mp ht with h | h
        · exact h ▸ hr
        · rcases List.mem_cons.mp h with h2 | h2
          · exact h2 ▸ hl s (List.mem_cons_self _ _)
          · exact hl t (List.mem_cons_of_mem _ h2)
      · refine ih (fun x hx => hl x (List.mem_cons_of_mem _ hx)) ?_ t ht
        have hs := hl s (List.mem_cons_self _ _)
        rw [Region.rbegin_mk]
        have : min s.rbegin r.rbegin ≤ max s.rend r.rend := by
          have := Region.rbegin_le_rend s
          omega
        omega

theorem selAdd_wf {l : List Region} (h : SelWF l) (r : Region) :
    SelWF (selAdd l r) := by
  induction l generalizing r with
  | nil => simp [selAdd, SelWF]
  | cons s rest ih =>
    simp only [SelWF, List.pairwise_cons] at h
    obtain ⟨hs, hrest⟩ := h
    simp only [selAdd]
    split
    · rename_i h1
      exact List.Pairwise.cons (fun t ht => selAdd_lb hs h1 t ht) (ih hrest r)
    · split
      · rename_i h1 h2
        refine List.Pairwise.cons ?_ (List.Pairwise.cons hs hrest)
        intro t ht
        rcases List.mem_cons.mp ht with h3 | h3
        · exact h3 ▸ (by omega)
        · have := hs t h3
          have h4 := Region.rbegin_le_rend s
          omega
      · exact ih hrest _

theorem selAddAll_wf {l : List Region} (h : SelWF l) (rs : List Region) :
    SelWF (selAddAll l rs) := by
  induction rs generalizing l with
  | nil => exact h
  | cons r rs ih => exact ih (selAdd_wf h r)

theorem selMerged_wf (w e : List Region) : SelWF (selMerged w e) :=
  selAddAll_wf (selAddAll_wf (by simp [SelWF]) w) e

theorem selAdd_append {l : List Region} {y : Region}
    (h : ∀ x ∈ l, x.rend < y.rbegin) : selAdd l y = l ++ [y] := by
  induction l with
  | nil => rfl
  | cons s rest ih =>
    rw [selAdd, if_pos (h s (List.mem_cons_self _ _)),
      ih (fun x hx => h x (List.mem_cons_of_mem _ hx))]
    rfl

theorem foldl_selAdd_append (xs : List Region) :
    ∀ acc : List Region, (∀ x ∈ acc, ∀ y ∈ xs, x.rend < y.rbegin) →
    SelWF xs → List.foldl selAdd acc xs = acc ++ xs := by
  induction xs with
  | nil => intro acc _ _; simp
  | cons y ys ih =>
    intro acc hsep hwf
    simp only [SelWF, List.pairwise_cons] at hwf
    obtain ⟨hy, hys⟩ := hwf
    have h1 : selAdd acc y = acc ++ [y] :=
      selAdd_append (fun x hx => hsep x hx y (List.mem_cons_self _ _))
    rw [List.foldl_cons, h1, ih (acc ++ [y]) ?_ hys]
    · simp
    · intro x hx z hz
      rcases List.mem_append.mp hx with h | h
      · exact hsep x h z (List.mem_cons_of_mem _ hz)
      · rw [List.mem_singleton.mp h]
        exact hy z hz

theorem selAddAll_nil_eq {l : List Region} (h : SelWF l) :
    selAddAll [] l = l := by
  rw [selAddAll, foldl_selAdd_append l [] (by simp) h]
  rfl

theorem find_error_ok_none {wrapFind : Bool} {sel w e : List Region}
    {forward : Bool} {s : List Region} {m : Option String}
    (h : find_error wrapFind sel w e forward = FindOutcome.ok none s m) :
    s = selAddAll [] sel ∧ m = some (noDirMsg forward) := by
  unfold find_error at h
  split at h
  · simp at h
  · split at h
    · simp at h
    · split at h
      · simp at h
      · simp only [FindOutcome.ok.injEq] at h
        exact ⟨h.2.1.symm, h.2.2.symm⟩

theorem find_error_forward (wrapFind : Bool) (sel w e : List Region)
    {r : Region}
    (h : scanForward (selMerged w e) (anchorPoint sel true) = some r) :
    find_error wrapFind sel w e true =
      FindOutcome.ok (some r) (select_lint_region w e r) none := by
  unfold find_error
  simp [h]

theorem find_error_backward (wrapFind : Bool) (sel w e : List Region)
    {r : Region}
    (h : scanBackward (selMerged w e) (anchorPoint sel false) = some r) :
    find_error wrapFind sel w e false =
      FindOutcome.ok (some r) (select_lint_region w e r) none := by
  unfold find_error
  simp [h]

/-- C1: the forward scan of `find_error` returns the first region in
index order whose `begin()` is strictly greater than the anchor (the
`begin()` of the selection's first span); the backward scan returns the
first region in reverse index order whose `end()` is strictly less than
the anchor (the `end()` of the selection's last span); a region starting
exactly at the forward anchor is never chosen by the directional scan;
and a successful directional scan determines `find_error`'s result. -/
theorem c1_directional_scan (regions : List Region) (point : Nat) (r : Region) :
    (scanForward regions point = some r ↔
      point < r.rbegin ∧ ∃ pre post, regions = pre ++ r :: post ∧
        ∀ s ∈ pre, ¬ point < s.rbegin) ∧
    (scanBackward regions point = some r ↔
      r.rend < point ∧ ∃ pre post, regions.reverse = pre ++ r :: post ∧
        ∀ s ∈ pre, ¬ s.rend < point) ∧
    (scanForward regions point = some r → r.rbegin ≠ point) ∧
    (∀ wrapFind sel w e, regions = selMerged w e →
      scanForward regions (anchorPoint sel true) = some r →
      find_error wrapFind sel w e true =
        FindOutcome.ok (some r) (select_lint_region w e r) none) ∧
    (∀ wrapFind sel w e, regions = selMerged w e →
      scanBackward regions (anchorPoint sel false) = some r →
      find_error wrapFind sel w e false =
        FindOutcome.ok (some r) (select_lint_region w e r) none) := by
  refine ⟨?_, ?_, ?_, ?_, ?_⟩
  · rw [scanForward_eq_find?, List.find?_eq_some]
    simp only [decide_eq_true_eq, Bool.not_eq_true', decide_eq_false_iff_not]
  · rw [scanBackward, scanBack_eq_find?, List.find?_eq_some]
    simp only [decide_eq_true_eq, Bool.not_eq_true', decide_eq_false_iff_not]
  · intro h
    rw [scanForward_eq_find?] at h
    have := List.find?_some h
    simp only [decide_eq_true_eq] at this
    omega
  · intro wrapFind sel w e hreg h
    exact find_error_forward wrapFind sel w e (hreg ▸ h)
  · intro wrapFind sel w e hreg h
    exact find_error_backward wrapFind sel w e (hreg ▸ h)

/-- C1 witness: the characterization evaluated on a concrete scan. -/
theorem c1_witness :
    scanForward [Region.mk 3 5] 0 = some (Region.mk 3 5) ∧
    find_error true [Region.mk 0 0] [Region.mk 3 5] [] true =
      FindOutcome.ok (some (Region.mk 3 5)) [Region.mk 3 5] none := by
  have h := c1_directional_scan [Region.mk 3 5] 0 (Region.mk 3 5)
  have h1 : scanForward [Region.mk 3 5] 0 = some (Region.mk 3 5) :=
    h.1.mpr ⟨by decide, [], [], rfl, by simp⟩
  refine ⟨h1, ?_⟩
  have h2 := h.2.2.2.1 true [Region.mk 0 0] [Region.mk 3 5] [] (by decide)
    (by decide)
  exact h2.trans (by decide)

/-- C2: with wrap enabled, exactly one region in total, and the caret
inside it, `find_error` fails with the directional message and restores
the selection instead of wrapping back to the sole region. -/
theorem c2_single_region_suppresses_wrap (w e sel : List Region)
    (forward : Bool) (r : Region) (hm : selMerged w e = [r])
    (hsel : SelWF sel)
    (hc : r.containsPt (anchorPoint sel forward) = true) :
    find_error true sel w e forward =
      FindOutcome.ok none sel (some (noDirMsg forward)) := by
  have hcontains := hc
  simp only [Region.containsPt, Bool.and_eq_true, decide_eq_true_eq] at hcontains
  have hfwd : scanForward [r] (anchorPoint sel forward) = none := by
    rw [scanForward, if_neg (by omega), scanForward]
  have hbwd : scanBackward [r] (anchorPoint sel forward) = none := by
    rw [scanBackward, List.reverse_singleton, scanBack, if_neg (by omega),
      scanBack]
  unfold find_error
  rw [hm]
  cases forward with
  | false =>
    rw [hbwd]
    simp [hc, selAddAll_nil_eq hsel]
  | true =>
    rw [hfwd]
    simp [hc, selAddAll_nil_eq hsel]

/-- C2 witness: one region `[3, 5]`, caret at 4 inside it, wrap on. -/
theorem c2_witness :
    find_error true [Region.mk 4 4] [Region.mk 3 5] [] true =
      FindOutcome.ok none [Region.mk 4 4] (some "No next lint errors.") := by
  have h := c2_single_region_suppresses_wrap [Region.mk 3 5] []
    [Region.mk 4 4] true (Region.mk 3 5) (by decide) (by simp [SelWF])
    (by decide)
  exact h.trans (by decide)

/-- C3 counterexample: the merged container sorts, so with the warning
region after the error region the scanned sequence is not
warnings-then-errors, and a forward search from offset 0 selects the
error region at `[5, 7]` — not the warning region at `[20, 22]` that a
warnings-first scan would find first. -/
theorem c3_cex :
    selMerged [Region.mk 20 22] [Region.mk 5 7] ≠
      [Region.mk 20 22, Region.mk 5 7] ∧
    selMerged [Region.mk 20 22] [Region.mk 5 7] =
      [Region.mk 5 7, Region.mk 20 22] ∧
    find_error true [Region.mk 0 0] [Region.mk 20 22] [Region.mk 5 7] true =
      FindOutcome.ok (some (Region.mk 5 7)) [Region.mk 5 7] none := by
  decide

/-- C3 amended: the merged sequence the navigator scans is the sorted
merge of the warning and error regions — consecutive regions are
separated and their `begin()`s strictly increase (the selection
container sorts and merges what is added, regardless of severity
order). -/
theorem c3_merged_is_sorted (w e : List Region) :
    (selMerged w e).Pairwise (fun x y => x.rend < y.rbegin) ∧
    (selMerged w e).Pairwise (fun x y => x.rbegin < y.rbegin) := by
  have h := selMerged_wf w e
  refine ⟨h, h.imp ?_⟩
  intro x y hxy
  have := Region.rbegin_le_rend x
  omega

/-- C4: with zero regions the directional scan misses and the wrap test
`regions[0]` faults (`IndexError`) with the selection left cleared,
instead of reporting "no region" normally as specified. -/
theorem c4_zero_regions_fault (wrapFind : Bool) (sel : List Region)
    (forward : Bool) :
    find_error wrapFind sel [] [] forward = FindOutcome.indexError [] := by
  unfold find_error
  cases forward <;> rfl

/-- C5: whenever a navigation call fails without faulting (no region
found, wrap disabled or suppressed), the selection after the call is
exactly the selection before it, and the surfaced message (`'No next
lint errors.'` / `'No previous lint errors.'`) differs from the empty
error-map message `'No lint errors.'` shown by the decorator. -/
theorem c5_failure_restores_selection
    (errs : List (Nat × List (Nat × String))) (wrapFind : Bool)
    (sel w e : List Region) (forward : Bool) (hsel : SelWF sel) :
    (run_find_error [] wrapFind sel w e forward =
      FindOutcome.ok none sel (some "No lint errors.")) ∧
    (∀ s m, errs ≠ [] →
      run_find_error errs wrapFind sel w e forward = FindOutcome.ok none s m →
      s = sel ∧ m = some (noDirMsg forward) ∧
      noDirMsg forward ≠ "No lint errors.") := by
  constructor
  · simp [run_find_error]
  · intro s m herrs h
    rw [run_find_error, if_neg (by simpa using herrs)] at h
    obtain ⟨hs, hm⟩ := find_error_ok_none h
    refine ⟨hs.trans (selAddAll_nil_eq hsel), hm, ?_⟩
    cases forward <;> decide

/-- C5 witness: one region `[3, 5]`, caret inside it — the failing
forward call restores the caret and its message differs from the
decorator's empty-document message. -/
theorem c5_witness :
    run_find_error [] true [Region.mk 4 4] [Region.mk 3 5] [] true =
      FindOutcome.ok none [Region.mk 4 4] (some "No lint errors.") ∧
    noDirMsg true ≠ "No lint errors." := by
  have h := c5_failure_restores_selection [(0, [(0, "m")])] true
    [Region.mk 4 4] [Region.mk 3 5] [] true (by simp [SelWF])
  exact ⟨h.1, (h.2 [Region.mk 4 4] (some (noDirMsg true)) (by simp)
    (by decide)).2.2⟩

/-- C6: with wrap enabled and at least two regions, a directional scan
that finds nothing makes `find_error` wrap — forward to the first region
of the merged sequence, backward to its last. -/
theorem c6_wrap_to_first_last (w e sel : List Region)
    (h2 : 2 ≤ (selMerged w e).length) :
    (scanForward (selMerged w e) (anchorPoint sel true) = none →
      find_error true sel w e true =
        FindOutcome.ok (some (selMerged w e).headI)
          (select_lint_region w e (selMerged w e).headI) none) ∧
    (scanBackward (selMerged w e) (anchorPoint sel false) = none →
      find_error true sel w e false =
        FindOutcome.ok (some (selMerged w e).getLastI)
          (select_lint_region w e (selMerged w e).getLastI) none) := by
  constructor
  · intro hscan
    unfold find_error
    simp only [if_pos rfl] at *
    rw [hscan]
    rcases hm : selMerged w e with _ | ⟨r0, rest⟩
    · rw [hm] at h2; simp at h2
    · rw [hm] at h2
      have hlen : decide (1 < (r0 :: rest).length) = true := by
        simp only [decide_eq_true_eq]
        simpa using h2
      simp [hlen, hm]
      intro hrest
      rw [hrest] at h2
      simp at h2
  · intro hscan
    unfold find_error
    simp only [Bool.false_eq_true, if_neg, reduceIte] at *
    rw [hscan]
    rcases hm : selMerged w e with _ | ⟨r0, rest⟩
    · rw [hm] at h2; simp at h2
    · rw [hm] at h2
      have hlen : decide (1 < (r0 :: rest).length) = true := by
        simp only [decide_eq_true_eq]
        simpa using h2
      simp [hlen, hm]
      intro hrest
      rw [hrest] at h2
      simp at h2

/-- C6 witness: two regions, caret after both going forward (wraps to
the first), caret before both going backward (wraps to the last). -/
theorem c6_witness :
    find_error true [Region.mk 20 20] [Region.mk 0 2, Region.mk 10 12] [] true =
      FindOutcome.ok (some (Region.mk 0 2)) [Region.mk 0 2] none := by
  have h := c6_wrap_to_first_last [Region.mk 0 2, Region.mk 10 12] []
    [Region.mk 20 20] (by decide)
  exact (h.1 (by decide)).trans (by decide)

/-- C7: after a successful navigation to a region, the selection is the
first mark — among all marks sorted by `begin()` ascending — fully
contained in the region: it is a contained mark of minimal `begin()`;
when no mark is contained, the selection is the empty region at the
region's `begin()`. -/
theorem c7_mark_selection (w e : List Region) (region : Region) :
    (∀ m, find_mark_within w e region = some m →
      select_lint_region w e region = [m] ∧ m ∈ w ++ e ∧
      region.containsReg m = true ∧
      ∀ m2 ∈ w ++ e, region.containsReg m2 = true →
        m.rbegin ≤ m2.rbegin) ∧
    (find_mark_within w e region = none →
      select_lint_region w e region =
        [Region.mk region.rbegin region.rbegin] ∧
      ∀ m2 ∈ w ++ e, region.containsReg m2 = false) := by
  have hperm := List.perm_insertionSort markLE (w ++ e)
  have hsorted := List.sorted_insertionSort markLE (w ++ e)
  constructor
  · intro m hfind
    refine ⟨?_, ?_, ?_, ?_⟩
    · rw [select_lint_region, hfind]; rfl
    · exact hperm.mem_iff.mp (List.mem_of_find?_eq_some hfind)
    · exact List.find?_some hfind
    · intro m2 hm2 hc2
      rw [find_mark_within, List.find?_eq_some] at hfind
      obtain ⟨hpm, as, bs, hsplit, has⟩ := hfind
      have hm2' : m2 ∈ List.insertionSort markLE (w ++ e) :=
        hperm.mem_iff.mpr hm2
      rw [hsplit] at hm2' hsorted
      rcases List.mem_append.mp hm2' with hin | hin
      · have := has m2 hin
        simp only [Bool.not_eq_eq_eq_not, Bool.not_true] at this
        rw [hc2] at this
        cases this
      · rcases List.mem_cons.mp hin with hin2 | hin2
        · exact hin2 ▸ le_refl _
        · have hpair := (List.pairwise_append.mp hsorted).2.1
          exact (List.pairwise_cons.mp hpair).1 m2 hin2
  · intro hfind
    refine ⟨?_, ?_⟩
    · rw [select_lint_region, hfind]; rfl
    · intro m2 hm2
      rw [find_mark_within, List.find?_eq_none] at hfind
      have := hfind m2 (hperm.mem_iff.mpr hm2)
      simpa using this

/-- C7 witness: a region holding exactly one mark selects that mark; a
region holding none selects the empty point at its `begin()`. -/
theorem c7_witness :
    select_lint_region [Region.mk 3 4] [] (Region.mk 0 10) = [Region.mk 3 4] ∧
    select_lint_region [Region.mk 30 40] [] (Region.mk 0 10) =
      [Region.mk 0 0] := by
  constructor
  · exact ((c7_mark_selection [Region.mk 3 4] [] (Region.mk 0 10)).1
      (Region.mk 3 4) (by decide)).1
  · have h := ((c7_mark_selection [Region.mk 30 40] [] (Region.mk 0 10)).2
      (by decide)).1
    exact h.trans (by decide)

/-- The spec's report example: one linter, diagnostics on line 3
(message "x") and line 7 (messages "y" and "z"). -/
def c8ex : List Linter :=
  [⟨some "doc.py", [(3, [(0, "x")]), (7, [(0, "y"), (0, "z")])]⟩]

/-- C8 counterexample: the example with diagnostics on lines
`{3: ["x"], 7: ["y", "z"]}` yields three diagnostic lines, not the two
stated — each `(line, col, message)` entry gets its own line, so line
7's `'  7: '` header appears twice. -/
theorem c8_cex :
    (c8ex.flatMap linter_lines).length ≠ 2 ∧
    c8ex.flatMap linter_lines = ["  3: x", "  7: y", "  7: z"] ∧
    report_fragment c8ex = some "\ndoc.py:\n  3: x\n  7: y\n  7: z\n" := by
  refine ⟨by decide, by decide, rfl⟩

/-- C8 amended: a lint completion with zero results from all linters
contributes no fragment; a completion with results yields exactly one
fragment whose per-linter diagnostic lines are sorted by line number
ascending with column order as produced; the example with lines
`{3: ["x"], 7: ["y", "z"]}` yields three diagnostic lines — line 7's
header once per message — in ascending line order. -/
theorem c8_report_fragment (linters : List Linter) :
    (linters.all (fun l => l.errors.isEmpty) = true →
      report_fragment linters = none) ∧
    (linters.all (fun l => l.errors.isEmpty) = false →
      (report_fragment linters).isSome = true) ∧
    (∀ l : Linter,
      ((List.insertionSort lineLE l.errors).map Prod.fst).Sorted (· ≤ ·)) ∧
    c8ex.flatMap linter_lines = ["  3: x", "  7: y", "  7: z"] := by
  refine ⟨?_, ?_, ?_, by decide⟩
  · intro h
    simp [report_fragment, h]
  · intro h
    have hne : linters ≠ [] := by
      intro hnil
      rw [hnil] at h
      simp at h
    rw [report_fragment, if_neg (by simpa using hne), if_neg (by simp [h])]
    rfl
  · intro l
    have hs := List.sorted_insertionSort lineLE l.errors
    exact List.Pairwise.map Prod.fst (fun a b hab => hab) hs

/-- C8 witness: the example produces a fragment. -/
theorem c8_witness : (report_fragment c8ex).isSome = true :=
  (c8_report_fragment c8ex).2.1 (by decide)

/-- C9: in the folder walk, a file of exactly 256 KiB − 1 bytes passes
the size filter and is kept; every file of 256 KiB or more is
excluded. -/
theorem c9_size_filter (files : List (String × Nat)) (path : String)
    (size : Nat) :
    folderSizeOk (256 * 1024 - 1) = true ∧
    ((path, 256 * 1024 - 1) ∈ files →
      (path, 256 * 1024 - 1) ∈ folder files) ∧
    (256 * 1024 ≤ size → (path, size) ∉ folder files) := by
  refine ⟨by decide, ?_, ?_⟩
  · intro h
    refine List.mem_filter.mpr ⟨h, ?_⟩
    show folderSizeOk (256 * 1024 - 1) = true
    decide
  · intro hs hmem
    have := (List.mem_filter.mp hmem).2
    simp only [folderSizeOk, decide_eq_true_eq] at this
    omega

/-- C9 witness: a 262143-byte file is kept, a 262144-byte one is not. -/
theorem c9_witness :
    ("a", 256 * 1024 - 1) ∈ folder [("a", 256 * 1024 - 1), ("b", 256 * 1024)] ∧
    ("b", 256 * 1024) ∉ folder [("a", 256 * 1024 - 1), ("b", 256 * 1024)] :=
  ⟨(c9_size_filter [("a", 256 * 1024 - 1), ("b", 256 * 1024)] "a" 0).2.1
      (by simp),
    (c9_size_filter [("a", 256 * 1024 - 1), ("b", 256 * 1024)] "b"
      (256 * 1024)).2.2 (by omega)⟩

/-- C10: with an empty selection the anchor defaults to 0 in both
directions; a successful forward scan then selects the first region with
`begin() > 0` — never one starting at offset 0 — and on failure the
restored selection is the original empty one, not the temporary `(0, 0)`
caret. -/
theorem c10_empty_selection (w e : List Region) (wrapFind forward : Bool) :
    anchorPoint [] forward = 0 ∧
    (∀ r, scanForward (selMerged w e) 0 = some r →
      r.rbegin ≠ 0 ∧
      find_error wrapFind [] w e true =
        FindOutcome.ok (some r) (select_lint_region w e r) none) ∧
    (∀ s m, find_error wrapFind [] w e forward = FindOutcome.ok none s m →
      s = []) := by
  have hanch : ∀ f : Bool, anchorPoint [] f = 0 := by
    intro f
    cases f <;> rfl
  refine ⟨hanch forward, ?_, ?_⟩
  · intro r hscan
    constructor
    · rw [scanForward_eq_find?] at hscan
      have := List.find?_some hscan
      simp only [decide_eq_true_eq] at this
      omega
    · exact find_error_forward wrapFind [] w e (by rw [hanch true]; exact hscan)
  · intro s m h
    exact (find_error_ok_none h).1

/-- C10 witness: empty selection, one region starting after 0 — it is
selected; with a region starting at 0 and wrap off, the call fails and
the selection stays empty. -/
theorem c10_witness :
    find_error true [] [Region.mk 3 5] [] true =
      FindOutcome.ok (some (Region.mk 3 5)) [Region.mk 3 5] none ∧
    ([] : List Region) = [] := by
  have h := (c10_empty_selection [Region.mk 3 5] [] true true).2.1
    (Region.mk 3 5) (by decide)
  exact ⟨h.2.trans (by decide), rfl⟩
